import Mathlib

/-!
Shallow embedding of `pinger-rs` (`src/src/lib.rs`).

Byte streams are `List Nat` (each element a byte value `< 256`; reads
truncate with `% 256` at the `read_u8` boundary).  Machine integers are
`Nat`/`Int` with explicit `% 2 ^ w` where the Rust code wraps.  Fallible
operations return `Except PingError`; a Rust `Vec` index out of bounds is
the distinguished `Outcome.panic`.
-/

namespace Pinger

/-- `PingError` from `lib.rs`: `Io` errors are split into the two kinds the
code produces (end of stream from `read_u8`/`read_u16`, and the explicit
`InvalidInput` errors of the varint readers, which carry their message);
`ParseInt` wraps a numeric-field parse failure, `UnexpectedPacketId` the
offending byte. -/
inductive PingError where
  | ioEof
  | ioInvalidInput (msg : String)
  | parseInt
  | unexpectedPacketId (b : Nat)
deriving DecidableEq, Repr

/-- `Version { protocol: i16, server: String }`. -/
structure Version where
  protocol : Int
  server : List Char
deriving DecidableEq, Repr

/-- `Status { dirty: bool, version: Option<Version>, motd: String, online: (u16, u16) }`. -/
structure Status where
  dirty : Bool
  version : Option Version
  motd : List Char
  online : Nat × Nat
deriving DecidableEq, Repr

/-- The observable result of `get_status` on a given response stream:
a `Status`, a returned `PingError`, or a Rust panic (out-of-bounds `Vec`
index). -/
inductive Outcome where
  | ok (s : Status)
  | err (e : PingError)
  | panic
deriving DecidableEq, Repr

/-- `read_u8`: one byte off the stream, end of stream is an I/O error. -/
def readU8 : List Nat → Except PingError (Nat × List Nat)
  | [] => .error .ioEof
  | b :: rest => .ok (b % 256, rest)

/-- `read_u16::<BE>`: two bytes, big-endian. -/
def readU16BE (bs : List Nat) : Except PingError (Nat × List Nat) :=
  match readU8 bs with
  | .error e => .error e
  | .ok (hi, bs) =>
    match readU8 bs with
    | .error e => .error e
    | .ok (lo, bs) => .ok (hi * 256 + lo, bs)

/-- `write_u16::<BE>` of a `u16` value (callers pass values already reduced
mod `2 ^ 16`; the `% 256` on the high byte makes the function total). -/
def writeU16BE (n : Nat) : List Nat := [n / 256 % 256, n % 256]

/-! ### VarInt codec -/

/-- The shift list of `read_var_i32`: `[0u32, 7, 14, 21, 28]`. -/
def i32Shifts : List Nat := [0, 7, 14, 21, 28]

/-- The shift list of `read_var_i64`. -/
def i64Shifts : List Nat := [0, 7, 14, 21, 28, 35, 42, 49, 56, 63]

/-- The common loop of `read_var_i32` / `read_var_i64`: for each shift in
turn read a byte `b`, accumulate `x |= (b & 0x7F) << shift` in a `w`-bit
register (`% 2 ^ w` models the wrapping left shift / or on `i32`/`i64`),
and stop when the continuation bit `0x80` is clear.  Exhausting the shift
list yields the `InvalidInput` error with message `msg`. -/
def readVarCore (w : Nat) (msg : String) : List Nat → Nat → List Nat → Except PingError (Nat × List Nat)
  | [], _, _ => .error (.ioInvalidInput msg)
  | _ :: _, _, [] => .error .ioEof
  | shift :: shifts, x, b0 :: bs =>
    let b := b0 % 256
    let x := (x ||| ((b &&& 0x7F) <<< shift)) % 2 ^ w
    if b &&& 0x80 == 0 then .ok (x, bs) else readVarCore w msg shifts x bs

/-- Reinterpret a 32-bit pattern as a signed value (the `i32` returned by
`read_var_i32`). -/
def toI32 (x : Nat) : Int := if x < 2 ^ 31 then (x : Int) else (x : Int) - 2 ^ 32

/-- Reinterpret a 64-bit pattern as a signed value. -/
def toI64 (x : Nat) : Int := if x < 2 ^ 63 then (x : Int) else (x : Int) - 2 ^ 64

/-- `read_var_i32`. -/
def read_var_i32 (bs : List Nat) : Except PingError (Int × List Nat) :=
  match readVarCore 32 "VarInt too big" i32Shifts 0 bs with
  | .error e => .error e
  | .ok (x, rest) => .ok (toI32 x, rest)

/-- `read_var_i64`. -/
def read_var_i64 (bs : List Nat) : Except PingError (Int × List Nat) :=
  match readVarCore 64 "VarLong too big" i64Shifts 0 bs with
  | .error e => .error e
  | .ok (x, rest) => .ok (toI64 x, rest)

/-- `value as u32`: the unsigned 32-bit pattern of a signed value. -/
def toU32 (v : Int) : Nat := (v % 2 ^ 32).toNat

/-- `value as u64`. -/
def toU64 (v : Int) : Nat := (v % 2 ^ 64).toNat

/-- The emit loop shared by `write_var_i32` / `write_var_i64` on the
unsigned pattern `temp`: while `temp & !0x7F != 0` (equivalently
`0x80 ≤ temp`, the width mask being irrelevant since `temp` stays below
the width), emit `(temp & 0x7F) | 0x80` and shift right by 7; finally emit
`temp as u8` (which equals `temp`, as `temp < 0x80`). -/
def writeVarNat (temp : Nat) : List Nat :=
  if temp < 0x80 then [temp]
  else ((temp &&& 0x7F) ||| 0x80) :: writeVarNat (temp >>> 7)
termination_by temp
decreasing_by
  simp only [Nat.shiftRight_eq_div_pow]
  exact Nat.div_lt_self (by omega) (by norm_num)

/-- `write_var_i32`. -/
def write_var_i32 (v : Int) : List Nat := writeVarNat (toU32 v)

/-- `write_var_i64`. -/
def write_var_i64 (v : Int) : List Nat := writeVarNat (toU64 v)

/-! ### Wide string codec -/

/-- `char::encode_utf16`: one code unit for the BMP, a surrogate pair
above it. -/
def encodeUtf16Char (c : Char) : List Nat :=
  let n := c.toNat
  if n < 0x10000 then [n]
  else [0xD800 + (n - 0x10000) / 0x400, 0xDC00 + (n - 0x10000) % 0x400]

/-- `str::encode_utf16`: the UTF-16 code-unit sequence of a string. -/
def encodeUtf16 (s : List Char) : List Nat := s.flatMap encodeUtf16Char

/-- `String::from_utf16_lossy` on a list of 16-bit code units: well-placed
surrogate pairs combine, unpaired surrogates become U+FFFD, everything
else maps through. -/
def decodeUtf16Lossy : List Nat → List Char
  | [] => []
  | [u] =>
    if 0xD800 ≤ u ∧ u ≤ 0xDBFF then [Char.ofNat 0xFFFD]
    else if 0xDC00 ≤ u ∧ u ≤ 0xDFFF then [Char.ofNat 0xFFFD]
    else [Char.ofNat u]
  | u :: u2 :: rest =>
    if 0xD800 ≤ u ∧ u ≤ 0xDBFF then
      if 0xDC00 ≤ u2 ∧ u2 ≤ 0xDFFF then
        Char.ofNat (0x10000 + (u - 0xD800) * 0x400 + (u2 - 0xDC00)) :: decodeUtf16Lossy rest
      else
        Char.ofNat 0xFFFD :: decodeUtf16Lossy (u2 :: rest)
    else if 0xDC00 ≤ u ∧ u ≤ 0xDFFF then
      Char.ofNat 0xFFFD :: decodeUtf16Lossy (u2 :: rest)
    else
      Char.ofNat u :: decodeUtf16Lossy (u2 :: rest)

/-- The read loop of `read_utf16_string`: `len` big-endian code units. -/
def readUtf16Units : Nat → List Nat → Except PingError (List Nat × List Nat)
  | 0, bs => .ok ([], bs)
  | n + 1, bs =>
    match readU16BE bs with
    | .error e => .error e
    | .ok (u, bs) =>
      match readUtf16Units n bs with
      | .error e => .error e
      | .ok (us, rest) => .ok (u :: us, rest)

/-- `read_utf16_string`: big-endian `u16` length, that many big-endian
code units, decoded lossily. -/
def read_utf16_string (bs : List Nat) : Except PingError (List Char × List Nat) :=
  match readU16BE bs with
  | .error e => .error e
  | .ok (len, bs) =>
    match readUtf16Units len bs with
    | .error e => .error e
    | .ok (us, rest) => .ok (decodeUtf16Lossy us, rest)

/-- `write_utf16_string`: the length cast `encoded.len() as u16` is
`% 2 ^ 16`, then every code unit big-endian. -/
def write_utf16_string (s : List Char) : List Nat :=
  writeU16BE ((encodeUtf16 s).length % 65536) ++ (encodeUtf16 s).flatMap writeU16BE

/-! ### Decimal parsing (`str::parse::<i16>` / `::<u16>`) -/

/-- Accumulate decimal digits; any non-digit character fails. -/
def parseNatCore : List Char → Nat → Option Nat
  | [], acc => some acc
  | c :: cs, acc =>
    if c.isDigit then parseNatCore cs (acc * 10 + (c.toNat - 48)) else none

/-- `str::parse::<u16>`: optional leading `+`, then a nonempty digit
string whose value fits in 16 bits (a leading `-` is not a digit for an
unsigned type and fails). -/
def parseU16 (s : List Char) : Except PingError Nat :=
  let digits := match s with
    | '+' :: rest => rest
    | _ => s
  match digits with
  | [] => .error .parseInt
  | _ :: _ =>
    match parseNatCore digits 0 with
    | none => .error .parseInt
    | some n => if n ≤ 65535 then .ok n else .error .parseInt

/-- `str::parse::<i16>`: optional sign, nonempty digits, value within
`[-32768, 32767]`. -/
def parseI16 (s : List Char) : Except PingError Int :=
  match s with
  | '-' :: rest =>
    match rest with
    | [] => .error .parseInt
    | _ :: _ =>
      match parseNatCore rest 0 with
      | none => .error .parseInt
      | some n => if n ≤ 32768 then .ok (-(n : Int)) else .error .parseInt
  | '+' :: rest =>
    match rest with
    | [] => .error .parseInt
    | _ :: _ =>
      match parseNatCore rest 0 with
      | none => .error .parseInt
      | some n => if n ≤ 32767 then .ok (n : Int) else .error .parseInt
  | _ =>
    match s with
    | [] => .error .parseInt
    | _ :: _ =>
      match parseNatCore s 0 with
      | none => .error .parseInt
      | some n => if n ≤ 32767 then .ok (n : Int) else .error .parseInt

/-! ### Status query -/

/-- The grammar dispatch of `get_status` on the decoded payload, indexing
and parsing fields in the evaluation order of the Rust struct literals
(`status[1].parse::<i16>()?`, `status[2]`, `status[3]`,
`status[4].parse::<u16>()?`, `status[5].parse::<u16>()?` in the
modern-in-legacy branch; `status[0]`, `status[1].parse::<u16>()?`,
`status[2].parse::<u16>()?` in the legacy branch).  An out-of-range index
is a Rust panic. -/
def parseResponse (response : List Char) : Outcome :=
  if ['§', '1'].isPrefixOf response then
    match (response.splitOn '\u0000')[1]? with
    | none => .panic
    | some f1 =>
      match parseI16 f1 with
      | .error e => .err e
      | .ok protocol =>
        match (response.splitOn '\u0000')[2]? with
        | none => .panic
        | some f2 =>
          match (response.splitOn '\u0000')[3]? with
          | none => .panic
          | some f3 =>
            match (response.splitOn '\u0000')[4]? with
            | none => .panic
            | some f4 =>
              match parseU16 f4 with
              | .error e => .err e
              | .ok cur =>
                match (response.splitOn '\u0000')[5]? with
                | none => .panic
                | some f5 =>
                  match parseU16 f5 with
                  | .error e => .err e
                  | .ok mx =>
                    .ok ⟨true, some ⟨protocol, f2⟩, f3, (cur, mx)⟩
  else
    match (response.splitOn '§')[0]? with
    | none => .panic
    | some f0 =>
      match (response.splitOn '§')[1]? with
      | none => .panic
      | some f1 =>
        match parseU16 f1 with
        | .error e => .err e
        | .ok cur =>
          match (response.splitOn '§')[2]? with
          | none => .panic
          | some f2 =>
            match parseU16 f2 with
            | .error e => .err e
            | .ok mx =>
              .ok ⟨true, none, f0, (cur, mx)⟩

/-- `get_status`, as a function of the response byte stream (the network
side — connecting, the 500 ms read timeout and writing the `0xFE 0x01`
probe — is outside the embedding): read the packet id, require `0xFF`,
decode the wide-string payload, dispatch on its grammar. -/
def get_status (input : List Nat) : Outcome :=
  match readU8 input with
  | .error e => .err e
  | .ok (packet_id, rest) =>
    if packet_id == 0xFF then
      match read_utf16_string rest with
      | .error e => .err e
      | .ok (response, _) => parseResponse response
    else
      .err (.unexpectedPacketId packet_id)


/-- The payload exactly as the spec's example lists its NUL-joined fields:
`§1`, `1`, `127`, `1.8`, `A Minecraft Server`, `5`, `20` (seven fields). -/
def c1SpecPayload : List Char :=
  String.toList "§1\u00001\u0000127\u00001.8\u0000A Minecraft Server\u00005\u000020"

/-- The same example with the marker field followed directly by the
protocol field: `§1`, `127`, `1.8`, `A Minecraft Server`, `5`, `20`. -/
def c1ModernPayload : List Char :=
  String.toList "§1\u0000127\u00001.8\u0000A Minecraft Server\u00005\u000020"

/-- The `Status` the spec's example expects. -/
def c1Claimed : Status :=
  ⟨true, some ⟨127, String.toList "1.8"⟩, String.toList "A Minecraft Server", (5, 20)⟩

/-! ### Helper lemmas: bit arithmetic -/

lemma and_127_eq_mod (n : Nat) : n &&& 127 = n % 128 := by
  have h := Nat.and_pow_two_sub_one_eq_mod n 7
  norm_num at h
  exact h

lemma and_128_of_lt (n : Nat) (h : n < 128) : n &&& 128 = 0 := by
  have h2 := Nat.and_two_pow n 7
  rw [Nat.testBit_lt_two_pow (by simpa using h)] at h2
  simpa using h2

lemma and_128_of_ge (n : Nat) (h1 : 128 ≤ n) (h2 : n < 256) : n &&& 128 = 128 := by
  have h7 : n.testBit 7 = true := by
    rw [Nat.testBit_to_div_mod]
    simp only [decide_eq_true_eq]
    omega
  have ha := Nat.and_two_pow n 7
  rw [h7] at ha
  simpa using ha

lemma lor_shiftLeft_disjoint (x m s : Nat) (hx : x < 2 ^ s) :
    x ||| (m <<< s) = x + m * 2 ^ s := by
  rw [Nat.shiftLeft_eq, Nat.lor_comm, Nat.mul_comm m, ← Nat.mul_add_lt_is_or hx m,
    Nat.mul_comm]
  exact Nat.add_comm _ _

/-! ### Helper lemmas: the varint emit loop -/

/-- Arithmetic form of one unfolding of `writeVarNat`. -/
lemma writeVarNat_eq (n : Nat) :
    writeVarNat n = if n < 128 then [n] else (n % 128 + 128) :: writeVarNat (n / 128) := by
  rw [writeVarNat]
  split
  · rfl
  · rw [and_127_eq_mod, Nat.shiftRight_eq_div_pow]
    norm_num
    have h := lor_shiftLeft_disjoint (n % 128) 1 7 (by omega)
    have h128 : (1 : Nat) <<< 7 = 128 := by decide
    rw [h128] at h
    rw [h]
    norm_num

lemma writeVarNat_ne_nil (n : Nat) : writeVarNat n ≠ [] := by
  rw [writeVarNat_eq]
  split <;> simp

lemma writeVarNat_mem_lt (n : Nat) : ∀ b ∈ writeVarNat n, b < 256 := by
  induction n using Nat.strong_induction_on with
  | _ n ih =>
    rw [writeVarNat_eq]
    split
    · intro b hb
      simp only [List.mem_singleton] at hb
      omega
    · intro b hb
      simp only [List.mem_cons] at hb
      rcases hb with hb | hb
      · omega
      · exact ih (n / 128) (Nat.div_lt_self (by omega) (by norm_num)) b hb

/-- The shift lists of the readers are arithmetic progressions of step 7. -/
lemma shifts_cons (k s : Nat) :
    (List.range (k + 1)).map (fun i => s + 7 * i)
      = s :: (List.range k).map (fun i => (s + 7) + 7 * i) := by
  rw [List.range_succ_eq_map]
  simp only [List.map_cons, List.map_map, Nat.mul_zero, Nat.add_zero]
  refine congrArg _ (List.map_congr_left ?_)
  intro a _
  simp only [Function.comp]
  omega

/-- One successful final step of the read loop: byte `n` with the
continuation bit clear. -/
lemma readVarCore_last (w : Nat) (msg : String) (s x n : Nat) (shifts rest : List Nat)
    (hn : n < 128) (hx : x < 2 ^ s) (hw : x + n * 2 ^ s < 2 ^ w) :
    readVarCore w msg (s :: shifts) x (n :: rest) = .ok (x + n * 2 ^ s, rest) := by
  simp only [readVarCore]
  rw [Nat.mod_eq_of_lt (show n < 256 by omega), and_127_eq_mod, Nat.mod_eq_of_lt hn,
    lor_shiftLeft_disjoint x n s hx, and_128_of_lt n hn, Nat.mod_eq_of_lt hw]
  simp

/-- One continuing step of the read loop: byte `n % 128 + 128` keeps the
loop running with the chunk accumulated at position `s`. -/
lemma readVarCore_cont (w : Nat) (msg : String) (s x n : Nat) (shifts rest : List Nat)
    (hn : 128 ≤ n) (hx : x < 2 ^ s) :
    readVarCore w msg (s :: shifts) x ((n % 128 + 128) :: rest)
      = readVarCore w msg shifts ((x + n % 128 * 2 ^ s) % 2 ^ w) rest := by
  simp only [readVarCore]
  rw [Nat.mod_eq_of_lt (show n % 128 + 128 < 256 by omega), and_127_eq_mod]
  rw [show (n % 128 + 128) % 128 = n % 128 by omega]
  rw [lor_shiftLeft_disjoint x (n % 128) s hx]
  rw [and_128_of_ge (n % 128 + 128) (by omega) (by omega)]
  simp

/-- Reading back what the emit loop wrote: if the remaining shift slots can
hold `n` and the accumulated bits stay below the register width, the read
loop returns the accumulator extended by `n` at position `s` and leaves the
trailing stream untouched. -/
lemma readVarCore_writeVarNat (w : Nat) (msg : String) :
    ∀ (k s x n : Nat) (rest : List Nat),
      n < 2 ^ (7 * (k + 1)) →
      x < 2 ^ s →
      x + n * 2 ^ s < 2 ^ w →
      readVarCore w msg ((List.range (k + 1)).map (fun i => s + 7 * i)) x
          (writeVarNat n ++ rest)
        = .ok (x + n * 2 ^ s, rest) := by
  intro k
  induction k with
  | zero =>
    intro s x n rest hn hx hw
    rw [shifts_cons, writeVarNat_eq]
    have hn128 : n < 128 := by
      have h1 : (2 : Nat) ^ (7 * (0 + 1)) = 128 := by norm_num
      omega
    rw [if_pos hn128, List.singleton_append]
    exact readVarCore_last w msg s x n _ rest hn128 hx hw
  | succ k ih =>
    intro s x n rest hn hx hw
    rw [shifts_cons, writeVarNat_eq]
    by_cases hn128 : n < 128
    · rw [if_pos hn128, List.singleton_append]
      exact readVarCore_last w msg s x n _ rest hn128 hx hw
    · rw [if_neg hn128, List.cons_append]
      rw [readVarCore_cont w msg s x n _ _ (by omega) hx]
      have hle : x + n % 128 * 2 ^ s ≤ x + n * 2 ^ s := by
        have h1 : n % 128 ≤ n := Nat.mod_le n 128
        exact Nat.add_le_add_left (Nat.mul_le_mul_right _ h1) x
      rw [Nat.mod_eq_of_lt (by omega)]
      have hx' : x + n % 128 * 2 ^ s < 2 ^ (s + 7) := by
        have h1 : n % 128 * 2 ^ s ≤ 127 * 2 ^ s :=
          Nat.mul_le_mul_right _ (by omega)
        have h2 : (2 : Nat) ^ (s + 7) = 2 ^ s * 128 := by
          rw [Nat.pow_add]; try norm_num
        have h3 : x + 127 * 2 ^ s < 2 ^ s * 128 := by
          nlinarith [Nat.pos_pow_of_pos s (show 0 < 2 by norm_num)]
        omega
      have hn' : n / 128 < 2 ^ (7 * (k + 1)) := by
        rw [Nat.div_lt_iff_lt_mul (by norm_num : (0 : Nat) < 128)]
        have h1 : (2 : Nat) ^ (7 * (k + 1)) * 128 = 2 ^ (7 * (k + 1 + 1)) := by
          rw [show 7 * (k + 1 + 1) = 7 * (k + 1) + 7 by ring, Nat.pow_add]
          try norm_num
        omega
      have hsum : x + n % 128 * 2 ^ s + n / 128 * 2 ^ (s + 7) = x + n * 2 ^ s := by
        have h2 : (2 : Nat) ^ (s + 7) = 2 ^ s * 128 := by
          rw [Nat.pow_add]; try norm_num
        rw [h2]
        have h3 : n % 128 * 2 ^ s + n / 128 * (2 ^ s * 128) = n * 2 ^ s := by
          have hdm : 128 * (n / 128) + n % 128 = n := Nat.div_add_mod n 128
          nlinarith [hdm]
        omega
      have hrec := ih (s + 7) (x + n % 128 * 2 ^ s) (n / 128) rest hn' hx' (by omega)
      rw [hrec, hsum]

lemma i32Shifts_eq : i32Shifts = (List.range 5).map (fun i => 0 + 7 * i) := by decide

lemma i64Shifts_eq : i64Shifts = (List.range 10).map (fun i => 0 + 7 * i) := by decide

lemma toU32_lt (v : Int) : toU32 v < 2 ^ 32 := by
  unfold toU32
  omega

lemma toU64_lt (v : Int) : toU64 v < 2 ^ 64 := by
  unfold toU64
  omega

lemma toI32_toU32 (v : Int) (h1 : -(2 ^ 31) ≤ v) (h2 : v < 2 ^ 31) : toI32 (toU32 v) = v := by
  unfold toI32 toU32
  split <;> omega

lemma toI64_toU64 (v : Int) (h1 : -(2 ^ 63) ≤ v) (h2 : v < 2 ^ 63) : toI64 (toU64 v) = v := by
  unfold toI64 toU64
  split <;> omega

/-- Claim C2: for every signed 32-bit integer `v`, decoding the bytes
produced by `write_var_i32 v` yields exactly `v` (and leaves any trailing
bytes untouched); likewise for every signed 64-bit integer with
`read_var_i64`/`write_var_i64`.  The ranges are the `i32`/`i64` ranges,
so `0` and `-1` are covered in particular. -/
theorem c2_varint_roundtrip (v32 v64 : Int) (r32 r64 : List Nat)
    (h32l : -(2 ^ 31) ≤ v32) (h32u : v32 < 2 ^ 31)
    (h64l : -(2 ^ 63) ≤ v64) (h64u : v64 < 2 ^ 63) :
    read_var_i32 (write_var_i32 v32 ++ r32) = .ok (v32, r32) ∧
    read_var_i64 (write_var_i64 v64 ++ r64) = .ok (v64, r64) := by
  constructor
  · unfold read_var_i32 write_var_i32
    rw [i32Shifts_eq]
    rw [readVarCore_writeVarNat 32 "VarInt too big" 4 0 0 (toU32 v32) r32
      (lt_of_lt_of_le (toU32_lt v32) (by norm_num)) (by norm_num)
      (by simpa using toU32_lt v32)]
    simp [toI32_toU32 v32 h32l h32u]
  · unfold read_var_i64 write_var_i64
    rw [i64Shifts_eq]
    rw [readVarCore_writeVarNat 64 "VarLong too big" 9 0 0 (toU64 v64) r64
      (lt_of_lt_of_le (toU64_lt v64) (by norm_num)) (by norm_num)
      (by simpa using toU64_lt v64)]
    simp [toI64_toU64 v64 h64l h64u]

/-- Witness for C2 at the boundary value `-1` (all bits set). -/
theorem c2_varint_roundtrip_witness :
    read_var_i32 (write_var_i32 (-1) ++ [9]) = .ok (-1, [9]) ∧
    read_var_i64 (write_var_i64 (-1) ++ [9]) = .ok (-1, [9]) :=
  c2_varint_roundtrip (-1) (-1) [9] [9] (by decide) (by decide) (by decide) (by decide)

/-- If every byte consumed has the continuation bit set, the read loop
exhausts its shift list and reports the too-large error. -/
lemma readVarCore_all_cont (w : Nat) (msg : String) :
    ∀ (shifts : List Nat) (x : Nat) (bs : List Nat),
      shifts.length ≤ bs.length →
      (∀ b ∈ bs.take shifts.length, b < 256 ∧ b &&& 0x80 ≠ 0) →
      readVarCore w msg shifts x bs = .error (.ioInvalidInput msg) := by
  intro shifts
  induction shifts with
  | nil =>
    intro x bs _ _
    cases bs <;> rfl
  | cons s shifts ih =>
    intro x bs hlen hcont
    cases bs with
    | nil => simp at hlen
    | cons b bs =>
      have hb := hcont b (by simp)
      simp only [readVarCore]
      rw [Nat.mod_eq_of_lt hb.1]
      have hne : (b &&& 128 == 0) = false := by
        simp only [beq_eq_false_iff_ne, ne_eq]
        exact hb.2
      rw [hne]
      simp only [Bool.false_eq_true, if_false]
      refine ih _ bs (by simpa using hlen) ?_
      intro b' hb'
      exact hcont b' (by simp [List.mem_cons]; right; exact hb')

/-- Claim C3: if the first 5 bytes (for `read_var_i32`) or the first 10
bytes (for `read_var_i64`) of the stream all carry the continuation bit
`0x80`, decoding fails with the explicit too-large `InvalidInput` error
instead of returning a wrapped value. -/
theorem c3_varint_too_big (bs32 bs64 : List Nat)
    (h32len : 5 ≤ bs32.length)
    (h32 : ∀ b ∈ bs32.take 5, b < 256 ∧ b &&& 0x80 ≠ 0)
    (h64len : 10 ≤ bs64.length)
    (h64 : ∀ b ∈ bs64.take 10, b < 256 ∧ b &&& 0x80 ≠ 0) :
    read_var_i32 bs32 = .error (.ioInvalidInput "VarInt too big") ∧
    read_var_i64 bs64 = .error (.ioInvalidInput "VarLong too big") := by
  constructor
  · unfold read_var_i32
    rw [readVarCore_all_cont 32 "VarInt too big" i32Shifts 0 bs32 h32len h32]
  · unfold read_var_i64
    rw [readVarCore_all_cont 64 "VarLong too big" i64Shifts 0 bs64 h64len h64]

/-- Witness for C3: five (resp. ten) `0xFF` bytes. -/
theorem c3_varint_too_big_witness :
    read_var_i32 [255, 255, 255, 255, 255] = .error (.ioInvalidInput "VarInt too big") ∧
    read_var_i64 [255, 255, 255, 255, 255, 255, 255, 255, 255, 255]
      = .error (.ioInvalidInput "VarLong too big") :=
  c3_varint_too_big [255, 255, 255, 255, 255]
    [255, 255, 255, 255, 255, 255, 255, 255, 255, 255]
    (by decide) (by decide) (by decide) (by decide)

lemma writeVarNat_length_le : ∀ (k n : Nat), n < 2 ^ (7 * (k + 1)) →
    (writeVarNat n).length ≤ k + 1 := by
  intro k
  induction k with
  | zero =>
    intro n hn
    rw [writeVarNat_eq, if_pos (by norm_num at hn; omega)]
    simp
  | succ k ih =>
    intro n hn
    rw [writeVarNat_eq]
    split
    · simp
    · simp only [List.length_cons]
      have hn' : n / 128 < 2 ^ (7 * (k + 1)) := by
        rw [Nat.div_lt_iff_lt_mul (by norm_num : (0 : Nat) < 128)]
        have h1 : (2 : Nat) ^ (7 * (k + 1)) * 128 = 2 ^ (7 * (k + 1 + 1)) := by
          rw [show 7 * (k + 1 + 1) = 7 * (k + 1) + 7 by ring, Nat.pow_add]
          try norm_num
        omega
      have := ih (n / 128) hn'
      omega

lemma writeVarNat_length_ge : ∀ (k n : Nat), 2 ^ (7 * k) ≤ n →
    k + 1 ≤ (writeVarNat n).length := by
  intro k
  induction k with
  | zero =>
    intro n _
    have := writeVarNat_ne_nil n
    have := List.length_pos.mpr this
    omega
  | succ k ih =>
    intro n hn
    have h128 : 128 ≤ n := by
      have h1 : (128 : Nat) = 2 ^ (7 * 1) := by norm_num
      have h2 : (2 : Nat) ^ (7 * 1) ≤ 2 ^ (7 * (k + 1)) :=
        Nat.pow_le_pow_right (by norm_num) (by omega)
      omega
    rw [writeVarNat_eq, if_neg (by omega)]
    simp only [List.length_cons]
    have hn' : 2 ^ (7 * k) ≤ n / 128 := by
      rw [Nat.le_div_iff_mul_le (by norm_num : (0 : Nat) < 128)]
      have h1 : (2 : Nat) ^ (7 * k) * 128 = 2 ^ (7 * (k + 1)) := by
        rw [show 7 * (k + 1) = 7 * k + 7 by ring, Nat.pow_add]
        try norm_num
      omega
    have := ih (n / 128) hn'
    omega

lemma writeVarNat_dropLast (n : Nat) : ∀ b ∈ (writeVarNat n).dropLast, b &&& 0x80 ≠ 0 := by
  induction n using Nat.strong_induction_on with
  | _ n ih =>
    rw [writeVarNat_eq]
    split
    · simp
    · intro b hb
      obtain ⟨y, ys, hys⟩ := List.exists_cons_of_ne_nil (writeVarNat_ne_nil (n / 128))
      rw [hys, List.dropLast_cons₂, List.mem_cons] at hb
      rcases hb with hb | hb
      · subst hb
        rw [and_128_of_ge (n % 128 + 128) (by omega) (by omega)]
        omega
      · rw [← hys] at hb
        exact ih (n / 128) (Nat.div_lt_self (by omega) (by norm_num)) b hb

lemma writeVarNat_getLast (n : Nat) :
    ∃ b, (writeVarNat n).getLast? = some b ∧ b &&& 0x80 = 0 := by
  induction n using Nat.strong_induction_on with
  | _ n ih =>
    rcases Nat.lt_or_ge n 128 with hn | hn
    · refine ⟨n, ?_, and_128_of_lt n hn⟩
      rw [writeVarNat_eq, if_pos hn]
      rfl
    · obtain ⟨b, hb1, hb2⟩ := ih (n / 128) (Nat.div_lt_self (by omega) (by norm_num))
      refine ⟨b, ?_, hb2⟩
      rw [writeVarNat_eq, if_neg (by omega)]
      obtain ⟨y, ys, hys⟩ := List.exists_cons_of_ne_nil (writeVarNat_ne_nil (n / 128))
      rw [hys, List.getLast?_cons_cons, ← hys]
      exact hb1

/-- Claim C10: `write_var_i32` emits between 1 and 5 bytes, every byte
except the last carries the continuation bit `0x80` and the last does not,
and every negative `i32` emits exactly 5 bytes; analogously
`write_var_i64` emits between 1 and 10 bytes (exactly 10 when negative).
Termination of both emit loops is established once and for all by the
well-founded recursion of `writeVarNat` (the accumulator strictly
decreases under the shift right by 7). -/
theorem c10_write_var_shape (v32 v64 : Int)
    (h32l : -(2 ^ 31) ≤ v32) (h32u : v32 < 2 ^ 31)
    (h64l : -(2 ^ 63) ≤ v64) (h64u : v64 < 2 ^ 63) :
    (1 ≤ (write_var_i32 v32).length ∧ (write_var_i32 v32).length ≤ 5 ∧
      (∀ b ∈ (write_var_i32 v32).dropLast, b &&& 0x80 ≠ 0) ∧
      (∃ b, (write_var_i32 v32).getLast? = some b ∧ b &&& 0x80 = 0) ∧
      (v32 < 0 → (write_var_i32 v32).length = 5)) ∧
    (1 ≤ (write_var_i64 v64).length ∧ (write_var_i64 v64).length ≤ 10 ∧
      (∀ b ∈ (write_var_i64 v64).dropLast, b &&& 0x80 ≠ 0) ∧
      (∃ b, (write_var_i64 v64).getLast? = some b ∧ b &&& 0x80 = 0) ∧
      (v64 < 0 → (write_var_i64 v64).length = 10)) := by
  constructor
  · unfold write_var_i32
    refine ⟨?_, ?_, writeVarNat_dropLast _, writeVarNat_getLast _, ?_⟩
    · have h1 := List.length_pos.mpr (writeVarNat_ne_nil (toU32 v32))
      omega
    · exact writeVarNat_length_le 4 (toU32 v32)
        (lt_of_lt_of_le (toU32_lt v32) (by norm_num))
    · intro hneg
      have hge := writeVarNat_length_ge 4 (toU32 v32) (by unfold toU32; norm_num; omega)
      have hle := writeVarNat_length_le 4 (toU32 v32)
        (lt_of_lt_of_le (toU32_lt v32) (by norm_num))
      omega
  · unfold write_var_i64
    refine ⟨?_, ?_, writeVarNat_dropLast _, writeVarNat_getLast _, ?_⟩
    · have h1 := List.length_pos.mpr (writeVarNat_ne_nil (toU64 v64))
      omega
    · exact writeVarNat_length_le 9 (toU64 v64)
        (lt_of_lt_of_le (toU64_lt v64) (by norm_num))
    · intro hneg
      have hge := writeVarNat_length_ge 9 (toU64 v64) (by unfold toU64; norm_num; omega)
      have hle := writeVarNat_length_le 9 (toU64 v64)
        (lt_of_lt_of_le (toU64_lt v64) (by norm_num))
      omega

/-- Witness for C10 at `-1` (both widths). -/
theorem c10_write_var_shape_witness :
    (1 ≤ (write_var_i32 (-1)).length ∧ (write_var_i32 (-1)).length ≤ 5 ∧
      (∀ b ∈ (write_var_i32 (-1)).dropLast, b &&& 0x80 ≠ 0) ∧
      (∃ b, (write_var_i32 (-1)).getLast? = some b ∧ b &&& 0x80 = 0) ∧
      ((-1 : Int) < 0 → (write_var_i32 (-1)).length = 5)) ∧
    (1 ≤ (write_var_i64 (-1)).length ∧ (write_var_i64 (-1)).length ≤ 10 ∧
      (∀ b ∈ (write_var_i64 (-1)).dropLast, b &&& 0x80 ≠ 0) ∧
      (∃ b, (write_var_i64 (-1)).getLast? = some b ∧ b &&& 0x80 = 0) ∧
      ((-1 : Int) < 0 → (write_var_i64 (-1)).length = 10)) :=
  c10_write_var_shape (-1) (-1) (by decide) (by decide) (by decide) (by decide)

/-! ### Helper lemmas: wide string codec -/

lemma char_not_surrogate (c : Char) : c.toNat < 0xD800 ∨ 0xDFFF < c.toNat := by
  rcases c.valid with h | h
  · exact Or.inl h
  · exact Or.inr h.1

lemma encodeUtf16Char_bmp (c : Char) (h : c.toNat < 0x10000) :
    encodeUtf16Char c = [c.toNat] := by
  simp only [encodeUtf16Char]
  rw [if_pos h]

lemma encodeUtf16_bmp (s : List Char) (h : ∀ c ∈ s, c.toNat < 0x10000) :
    encodeUtf16 s = s.map Char.toNat := by
  induction s with
  | nil => rfl
  | cons c cs ih =>
    simp only [encodeUtf16, List.flatMap_cons, List.map_cons]
    rw [encodeUtf16Char_bmp c (h c (by simp))]
    simp only [List.cons_append, List.nil_append]
    congr 1
    exact ih (fun x hx => h x (List.mem_cons_of_mem c hx))

lemma readU16BE_writeU16BE (u : Nat) (rest : List Nat) (h : u < 65536) :
    readU16BE (writeU16BE u ++ rest) = .ok (u, rest) := by
  simp only [writeU16BE, readU16BE, readU8, List.cons_append, List.nil_append]
  have he : u / 256 % 256 % 256 * 256 + u % 256 % 256 = u := by omega
  rw [he]

lemma readUtf16Units_flatMap (us : List Nat) (rest : List Nat)
    (h : ∀ u ∈ us, u < 65536) :
    readUtf16Units us.length (us.flatMap writeU16BE ++ rest) = .ok (us, rest) := by
  induction us with
  | nil => rfl
  | cons u us ih =>
    simp only [List.length_cons, List.flatMap_cons, readUtf16Units, List.append_assoc]
    have h1 := readU16BE_writeU16BE u (us.flatMap writeU16BE ++ rest) (h u (by simp))
    simp only [h1]
    have h2 := ih (fun x hx => h x (List.mem_cons_of_mem u hx))
    simp only [h2]

lemma decodeUtf16Lossy_nonsurrogate (u : Nat) (rest : List Nat)
    (h1 : ¬(0xD800 ≤ u ∧ u ≤ 0xDBFF)) (h2 : ¬(0xDC00 ≤ u ∧ u ≤ 0xDFFF)) :
    decodeUtf16Lossy (u :: rest) = Char.ofNat u :: decodeUtf16Lossy rest := by
  cases rest with
  | nil =>
    simp only [decodeUtf16Lossy]
    rw [if_neg h1, if_neg h2]
  | cons u2 rest2 =>
    simp only [decodeUtf16Lossy]
    rw [if_neg h1, if_neg h2]

lemma decodeUtf16Lossy_map_toNat (s : List Char) (h : ∀ c ∈ s, c.toNat < 0x10000) :
    decodeUtf16Lossy (s.map Char.toNat) = s := by
  induction s with
  | nil => rw [List.map_nil, decodeUtf16Lossy]
  | cons c cs ih =>
    have hc := h c (by simp)
    have hns := char_not_surrogate c
    rw [List.map_cons]
    rw [decodeUtf16Lossy_nonsurrogate _ _ (by omega) (by omega)]
    rw [Char.ofNat_toNat]
    congr 1
    exact ih (fun x hx => h x (List.mem_cons_of_mem c hx))

/-- Claim C7: for every string of characters representable without
surrogate pairs (code points below `0x10000`) whose UTF-16 encoding
respects the length precondition of `write_utf16_string` (at most 65535
code units), decoding the bytes written for it restores the string exactly
and leaves trailing bytes untouched. -/
theorem c7_utf16_roundtrip (s : List Char) (rest : List Nat)
    (hbmp : ∀ c ∈ s, c.toNat < 0x10000)
    (hlen : (encodeUtf16 s).length ≤ 65535) :
    read_utf16_string (write_utf16_string s ++ rest) = .ok (s, rest) := by
  unfold write_utf16_string read_utf16_string
  rw [encodeUtf16_bmp s hbmp] at hlen ⊢
  rw [List.length_map] at hlen ⊢
  rw [Nat.mod_eq_of_lt (by omega)]
  rw [List.append_assoc]
  have h1 := readU16BE_writeU16BE s.length
    ((s.map Char.toNat).flatMap writeU16BE ++ rest) (by omega)
  simp only [h1]
  have hunits : ∀ u ∈ s.map Char.toNat, u < 65536 := by
    intro u hu
    obtain ⟨c, hc, rfl⟩ := List.mem_map.mp hu
    exact hbmp c hc
  have h2 := readUtf16Units_flatMap (s.map Char.toNat) rest hunits
  rw [List.length_map] at h2
  simp only [h2]
  rw [decodeUtf16Lossy_map_toNat s hbmp]

/-- Witness for C7 on a small ASCII string. -/
theorem c7_utf16_roundtrip_witness :
    read_utf16_string (write_utf16_string ['p', 'i'] ++ [3]) = .ok (['p', 'i'], [3]) :=
  c7_utf16_roundtrip ['p', 'i'] [3] (by decide) (by decide)

lemma length_flatMap_writeU16BE (us : List Nat) :
    (us.flatMap writeU16BE).length = 2 * us.length := by
  induction us with
  | nil => rfl
  | cons u us ih =>
    simp only [List.flatMap_cons, List.length_append, List.length_cons, ih, writeU16BE]
    simp only [List.length_cons, List.length_nil]
    omega

/-- Claim C9: when the text encodes to `n > 65535` UTF-16 code units,
`write_utf16_string` does not fail: its length prefix is `n % 65536`
(the `as u16` truncation) while the body still carries all `n` code units
(`2 * n` bytes), so the prefix no longer describes the data that
follows (`n % 65536 < n`). -/
theorem c9_utf16_length_truncation (s : List Char)
    (h : 65535 < (encodeUtf16 s).length) :
    write_utf16_string s
        = writeU16BE ((encodeUtf16 s).length % 65536)
            ++ (encodeUtf16 s).flatMap writeU16BE ∧
    ((encodeUtf16 s).flatMap writeU16BE).length = 2 * (encodeUtf16 s).length ∧
    (encodeUtf16 s).length % 65536 < (encodeUtf16 s).length := by
  refine ⟨rfl, length_flatMap_writeU16BE _, ?_⟩
  have h1 : (encodeUtf16 s).length % 65536 ≤ 65535 := by omega
  omega

lemma encodeUtf16_replicate_a (n : Nat) :
    encodeUtf16 (List.replicate n 'a') = List.replicate n 97 := by
  induction n with
  | zero => rfl
  | succ n ih =>
    rw [List.replicate_succ, List.replicate_succ]
    simp only [encodeUtf16, List.flatMap_cons] at ih ⊢
    rw [ih]
    rfl

/-- Witness for C9 on 65536 copies of `'a'`. -/
theorem c9_utf16_length_truncation_witness :
    65535 < (encodeUtf16 (List.replicate 65536 'a')).length ∧
    (write_utf16_string (List.replicate 65536 'a')
        = writeU16BE ((encodeUtf16 (List.replicate 65536 'a')).length % 65536)
            ++ (encodeUtf16 (List.replicate 65536 'a')).flatMap writeU16BE ∧
      ((encodeUtf16 (List.replicate 65536 'a')).flatMap writeU16BE).length
        = 2 * (encodeUtf16 (List.replicate 65536 'a')).length ∧
      (encodeUtf16 (List.replicate 65536 'a')).length % 65536
        < (encodeUtf16 (List.replicate 65536 'a')).length) := by
  have h : 65535 < (encodeUtf16 (List.replicate 65536 'a')).length := by
    rw [encodeUtf16_replicate_a, List.length_replicate]
    omega
  exact ⟨h, c9_utf16_length_truncation (List.replicate 65536 'a') h⟩

/-! ### Status query claims -/

/-- Claim C1 counterexample: on the payload with the spec's seven
NUL-joined fields, `get_status` reads `1` as the protocol, `127` as the
server text, `1.8` as the motd and then fails to parse
`A Minecraft Server` as a player count — it returns the `ParseInt` error,
not the claimed `Status`. -/
theorem c1_seven_field_counterexample :
    get_status (255 :: write_utf16_string c1SpecPayload) = .err .parseInt ∧
    get_status (255 :: write_utf16_string c1SpecPayload) ≠ .ok c1Claimed := by
  decide

/-- Claim C1 (amended): on the modern-in-legacy payload whose NUL-joined
fields are `§1`, `127`, `1.8`, `A Minecraft Server`, `5`, `20` (the
marker field followed directly by the protocol field, as the code indexes
them), `get_status` returns
`Status{dirty: true, version: Some{protocol: 127, server: "1.8"},
motd: "A Minecraft Server", online: (5, 20)}`. -/
theorem c1_modern_payload_status :
    get_status (255 :: write_utf16_string c1ModernPayload) = .ok c1Claimed := by
  decide

/-- Claim C5: on the legacy payload `A Minecraft Server§3§20` (no
section-sign + `1` marker), `get_status` returns
`Status{dirty: true, version: None, motd: "A Minecraft Server",
online: (3, 20)}`. -/
theorem c5_legacy_payload_status :
    get_status (255 :: write_utf16_string (String.toList "A Minecraft Server§3§20"))
      = .ok ⟨true, none, String.toList "A Minecraft Server", (3, 20)⟩ := by
  decide

/-- Claim C6: any response-identifier byte other than `0xFF` makes
`get_status` fail with `UnexpectedPacketId` carrying exactly that byte,
whatever the rest of the stream holds. -/
theorem c6_unexpected_packet_id (b : Nat) (rest : List Nat)
    (hb : b < 256) (hne : b ≠ 0xFF) :
    get_status (b :: rest) = .err (.unexpectedPacketId b) := by
  unfold get_status readU8
  simp only [Nat.mod_eq_of_lt hb]
  rw [if_neg (by simp only [beq_iff_eq]; exact hne)]

/-- Witness for C6: identifier `0x02` yields the protocol error carrying
`2`. -/
theorem c6_unexpected_packet_id_witness :
    get_status (2 :: [1, 2, 3]) = .err (.unexpectedPacketId 2) :=
  c6_unexpected_packet_id 2 [1, 2, 3] (by decide) (by decide)

lemma parseResponse_ok_dirty (r : List Char) (s : Status)
    (h : parseResponse r = Outcome.ok s) : s.dirty = true := by
  unfold parseResponse at h
  repeat' split at h
  all_goals first
    | exact Outcome.noConfusion h
    | (injection h with h2; subst h2; rfl)

/-- Claim C8: whenever `get_status` returns `Ok(status)`, the `dirty`
field is `true` — both branches construct their `Status` with
`dirty: true`. -/
theorem c8_status_dirty (input : List Nat) (s : Status)
    (h : get_status input = Outcome.ok s) : s.dirty = true := by
  unfold get_status at h
  repeat' split at h
  all_goals first
    | exact Outcome.noConfusion h
    | exact parseResponse_ok_dirty _ _ h

/-- Witness for C8 on a concrete successful legacy query. -/
theorem c8_status_dirty_witness :
    (⟨true, none, ['m'], (1, 2)⟩ : Status).dirty = true :=
  c8_status_dirty (255 :: write_utf16_string (String.toList "m§1§2"))
    ⟨true, none, ['m'], (1, 2)⟩ (by decide)

lemma parseResponse_ok_fields (r : List Char) (s : Status)
    (h : parseResponse r = Outcome.ok s) :
    (['§', '1'].isPrefixOf r = true → 6 ≤ (r.splitOn '\u0000').length) ∧
    (['§', '1'].isPrefixOf r = false → 3 ≤ (r.splitOn '§').length) := by
  unfold parseResponse at h
  split at h
  · rename_i hpre
    refine ⟨fun _ => ?_, fun hf => by rw [hpre] at hf; cases hf⟩
    repeat' split at h
    all_goals try exact Outcome.noConfusion h
    all_goals (simp only [List.getElem?_eq_some_iff] at *; casesm* ∃ _, _ ; omega)
  · rename_i hpre
    refine ⟨fun ht => absurd ht hpre, fun _ => ?_⟩
    repeat' split at h
    all_goals try exact Outcome.noConfusion h
    all_goals (simp only [List.getElem?_eq_some_iff] at *; casesm* ∃ _, _ ; omega)

/-- Claim C4 counterexample: on the modern-marker payload `§1`, which
splits into a single NUL-field, `get_status` panics on the out-of-range
`Vec` index `1` — it does not return a parse error (no `PingError` of any
kind, and no `Status`), refuting the claim that a missing required field
yields a returned `PingError`. -/
theorem c4_index_panic_counterexample :
    ((String.toList "§1").splitOn '\u0000').length < 6 ∧
    get_status (255 :: write_utf16_string (String.toList "§1")) = Outcome.panic ∧
    (∀ e : PingError,
      get_status (255 :: write_utf16_string (String.toList "§1")) ≠ Outcome.err e) ∧
    (∀ s : Status,
      get_status (255 :: write_utf16_string (String.toList "§1")) ≠ Outcome.ok s) := by
  have hp : get_status (255 :: write_utf16_string (String.toList "§1")) = Outcome.panic := by
    decide
  refine ⟨by decide, hp, ?_, ?_⟩
  · intro e he
    rw [hp] at he
    exact Outcome.noConfusion he
  · intro s hs
    rw [hp] at hs
    exact Outcome.noConfusion hs

/-- Claim C4 (amended): a response payload with a required field index out
of range (modern-in-legacy branch: fewer than 6 NUL-separated fields;
legacy branch: fewer than 3 section-sign-separated fields) never produces
a `Status`: the query aborts, either by panicking on the out-of-range
index or — when an earlier numeric field already fails to parse — with a
returned parse error. -/
theorem c4_missing_fields_no_status (response : List Char)
    (h : (['§', '1'].isPrefixOf response = true ∧
            (response.splitOn '\u0000').length < 6) ∨
         (['§', '1'].isPrefixOf response = false ∧
            (response.splitOn '§').length < 3)) :
    parseResponse response = Outcome.panic ∨
      ∃ e, parseResponse response = Outcome.err e := by
  cases hpr : parseResponse response with
  | ok s =>
    exfalso
    have hf := parseResponse_ok_fields response s hpr
    rcases h with ⟨hp, hl⟩ | ⟨hp, hl⟩
    · have := hf.1 hp
      omega
    · have := hf.2 hp
      omega
  | err e => exact Or.inr ⟨e, rfl⟩
  | panic => exact Or.inl rfl

/-- Witness for the amended C4 on the one-field legacy payload `x`. -/
theorem c4_missing_fields_no_status_witness :
    parseResponse (String.toList "x") = Outcome.panic ∨
      ∃ e, parseResponse (String.toList "x") = Outcome.err e :=
  c4_missing_fields_no_status (String.toList "x") (by decide)

end Pinger
